import Mathlib

/-! cpp-simple-vector: ArrayPtr and SimpleVector

Shallow embedding of `src/simple-vector/array_ptr.h` and
`src/simple-vector/simple_vector.h`.

Modelling conventions.

* A heap array obtained from `new Type[n]{}` is a `List α` of length `n`; a raw
  pointer `Type*` to the start of such an array is a `RawPtr α` (`null` or
  `heap cells`).  An iterator/pointer into the array is its offset from the
  start of the array (a `Nat`, or an `Int` where the caller may pass a position
  before `begin()`).
* Every access through a raw pointer is bounds checked against the number of
  slots really allocated: an access outside the array, an access through
  `nullptr`, or a failed `assert`, is undefined behaviour and makes the
  operation return `none` (internal helpers) or `Outcome.undefined` (public
  methods).
* `std::out_of_range` is `Outcome.out_of_range st`, carrying the state of the
  vector at the moment of the throw.
* `std::move` of an element is modelled as a copy of its value: the moved-from
  slot is never observed by the code before it is overwritten or freed.
* `size_t` and `int` quantities are unbounded `Nat`/`Int`: all statements are
  about vectors whose sizes stay below the wrap-around of the machine types
  (such arrays cannot be allocated anyway).
* `Type{}` is `default` of an `Inhabited` element type.
-/

namespace CppSimpleVector

/-- Result of calling a method on a state of type `σ`: normal return with a
value and the new state, a thrown `std::out_of_range` with the state at the
throw, or undefined behaviour. -/
inductive Outcome (ρ σ : Type) where
  | ok (ret : ρ) (st : σ)
  | out_of_range (st : σ)
  | undefined
  deriving DecidableEq, Repr

/-- Raw pointer `Type*` to the first slot of a heap array, or `nullptr`. -/
inductive RawPtr (α : Type) where
  | null
  | heap (cells : List α)
  deriving DecidableEq, Repr

/-- Number of slots really allocated behind a raw pointer. -/
def RawPtr.slots {α : Type} : RawPtr α → Nat
  | .null => 0
  | .heap cells => cells.length

/-- Contents of the array behind a raw pointer (empty for `nullptr`). -/
def RawPtr.cells {α : Type} : RawPtr α → List α
  | .null => []
  | .heap cells => cells

/-- Read `p[i]`; `none` when the slot is not allocated. -/
def RawPtr.load {α : Type} : RawPtr α → Nat → Option α
  | .null, _ => none
  | .heap cells, i => cells[i]?

/-- Write `p[i] = x`; `none` when the slot is not allocated. -/
def RawPtr.store {α : Type} : RawPtr α → Nat → α → Option (RawPtr α)
  | .null, _, _ => none
  | .heap cells, i, x => if i < cells.length then some (.heap (cells.set i x)) else none

/-- Loop `for (; it != last; ++it) *it = value;` with `n` iterations left. -/
def fill_loop {α : Type} (value : α) (p : RawPtr α) (it : Nat) : Nat → Option (RawPtr α)
  | 0 => some p
  | n + 1 =>
    match p.store it value with
    | none => none
    | some p' => fill_loop value p' (it + 1) n

/-- The range fill `for (it = p + first; it != p + last; ++it) *it = value;`
(also `std::fill(p + first, p + last, value)`).  With `first > last` the
iterator never meets `last` inside the array. -/
def fill_range {α : Type} (value : α) (p : RawPtr α) (first last : Nat) : Option (RawPtr α) :=
  if first ≤ last then fill_loop value p first (last - first) else none

/-- Loop of `std::copy`/`std::move` from one array into another:
`while (first != last) *d_first++ = *first++;` with `n` iterations left. -/
def copy_loop {α : Type} (src : RawPtr α) (first : Nat) (dst : RawPtr α) (d_first : Nat) :
    Nat → Option (RawPtr α)
  | 0 => some dst
  | n + 1 =>
    match src.load first with
    | none => none
    | some x =>
      match dst.store d_first x with
      | none => none
      | some dst' => copy_loop src (first + 1) dst' (d_first + 1) n

/-- The algorithm `std::move(src + first, src + last, dst + d_first)` (and
`std::copy`) between two different arrays; returns the destination array. -/
def std_move {α : Type} (src : RawPtr α) (first last : Nat) (dst : RawPtr α) (d_first : Nat) :
    Option (RawPtr α) :=
  if first ≤ last then copy_loop src first dst d_first (last - first) else none

/-- Loop of `std::move` when source and destination lie in the same array:
`while (first != last) *d_first++ = *first++;` with `n` iterations left. -/
def move_self_loop {α : Type} (p : RawPtr α) (first d_first : Nat) : Nat → Option (RawPtr α)
  | 0 => some p
  | n + 1 =>
    match p.load first with
    | none => none
    | some x =>
      match p.store d_first x with
      | none => none
      | some p' => move_self_loop p' (first + 1) (d_first + 1) n

/-- The algorithm `std::move(p + first, p + last, p + d_first)` inside one
array. -/
def std_move_self {α : Type} (p : RawPtr α) (first last d_first : Nat) : Option (RawPtr α) :=
  if first ≤ last then move_self_loop p first d_first (last - first) else none

/-- Loop of `std::copy_backward`/`std::move_backward` inside one array:
`while (first != last) *(--d_last) = *(--last);` with `n` iterations left. -/
def backward_loop {α : Type} (p : RawPtr α) : Nat → Nat → Nat → Option (RawPtr α)
  | _, _, 0 => some p
  | last + 1, d_last + 1, n + 1 =>
    match p.load last with
    | none => none
    | some x =>
      match p.store d_last x with
      | none => none
      | some p' => backward_loop p' last d_last n
  | _, _, _ + 1 => none

/-- The algorithm `std::copy_backward(p + first, p + last, p + d_last)` (and
`std::move_backward`) inside one array. -/
def std_copy_backward {α : Type} (p : RawPtr α) (first last d_last : Nat) : Option (RawPtr α) :=
  if first ≤ last then backward_loop p last d_last (last - first) else none

/-! ## ArrayPtr (array_ptr.h) -/

/-- The class `ArrayPtr<Type>`: fields `raw_ptr_` and `size_`, both with the
default member initialisers of the source. -/
structure ArrayPtr (α : Type) where
  raw_ptr_ : RawPtr α := .null
  size_ : Nat := 0
  deriving DecidableEq, Repr

/-- The constructor `explicit ArrayPtr(size_t size)`. -/
def ArrayPtr.ofSize {α : Type} [Inhabited α] (size : Nat) : ArrayPtr α :=
  if size = 0 then { raw_ptr_ := .null, size_ := size }
  else { raw_ptr_ := .heap (List.replicate size default), size_ := size }

/-- The constructor `ArrayPtr(Type* raw_ptr, size_t size)`. -/
def ArrayPtr.ofRaw {α : Type} (raw_ptr : RawPtr α) (size : Nat) : ArrayPtr α :=
  { raw_ptr_ := raw_ptr, size_ := size }

/-- The method `Release()`: the returned pointer and the emptied object. -/
def ArrayPtr.Release {α : Type} (a : ArrayPtr α) : RawPtr α × ArrayPtr α :=
  (a.raw_ptr_, { raw_ptr_ := .null, size_ := 0 })

/-- The method `Get()`. -/
def ArrayPtr.Get {α : Type} (a : ArrayPtr α) : RawPtr α := a.raw_ptr_

/-- The conversion `explicit operator bool()`. -/
def ArrayPtr.toBool {α : Type} (a : ArrayPtr α) : Bool :=
  match a.raw_ptr_ with
  | .null => false
  | .heap _ => true

/-- The method `swap(ArrayPtr& other)`: new `(this, other)`. -/
def ArrayPtr.swap {α : Type} (a other : ArrayPtr α) : ArrayPtr α × ArrayPtr α :=
  ({ raw_ptr_ := other.raw_ptr_, size_ := other.size_ },
   { raw_ptr_ := a.raw_ptr_, size_ := a.size_ })

/-- The method `Clear()`: frees the array and empties the object. -/
def ArrayPtr.Clear {α : Type} (_a : ArrayPtr α) : ArrayPtr α :=
  { raw_ptr_ := .null, size_ := 0 }

/-- Read through `operator[](size_t index)`: `assert(index < size_)` and then
`raw_ptr_[index]`. -/
def ArrayPtr.index {α : Type} (a : ArrayPtr α) (index : Nat) : Option α :=
  if index < a.size_ then a.raw_ptr_.load index else none

/-- Write through `operator[](size_t index)`: `assert(index < size_)` and then
`raw_ptr_[index] = x`. -/
def ArrayPtr.assign {α : Type} (a : ArrayPtr α) (index : Nat) (x : α) : Option (ArrayPtr α) :=
  if index < a.size_ then
    match a.raw_ptr_.store index x with
    | none => none
    | some p => some { raw_ptr_ := p, size_ := a.size_ }
  else none

/-! ## SimpleVector (simple_vector.h) -/

/-- The class `SimpleVector<Type>`: fields `items_`, `size_`, `capacity_` with
the default member initialisers of the source (so `{}` is the default
constructor). -/
structure SimpleVector (α : Type) where
  items_ : ArrayPtr α := {}
  size_ : Nat := 0
  capacity_ : Nat := 0
  deriving DecidableEq, Repr

/-- Iterators are offsets from `items_.Get()`. -/
abbrev Iterator := Int

/-- The method `GetSize()`. -/
def SimpleVector.GetSize {α : Type} (v : SimpleVector α) : Nat := v.size_

/-- The method `GetCapacity()`. -/
def SimpleVector.GetCapacity {α : Type} (v : SimpleVector α) : Nat := v.capacity_

/-- The method `IsEmpty()`. -/
def SimpleVector.IsEmpty {α : Type} (v : SimpleVector α) : Bool := v.size_ == 0

/-- The method `begin()` (also `cbegin()`): offset 0 from `items_.Get()`. -/
def SimpleVector.begin {α : Type} (_v : SimpleVector α) : Iterator := 0

/-- The method `end()` (also `cend()`): `items_.Get() + size_`. -/
def SimpleVector.end_ {α : Type} (v : SimpleVector α) : Iterator := (v.size_ : Int)

/-- Replace the array behind `items_.Get()` after writes made through that
raw pointer (the recorded `items_.size_` is not touched by such writes). -/
def SimpleVector.withRaw {α : Type} (v : SimpleVector α) (p : RawPtr α) : SimpleVector α :=
  { items_ := { raw_ptr_ := p, size_ := v.items_.size_ }, size_ := v.size_,
    capacity_ := v.capacity_ }

/-- Read through `operator[](size_t index)`: `assert(index < size_)` and then
`items_[index]`. -/
def SimpleVector.index {α : Type} (v : SimpleVector α) (index : Nat) : Option α :=
  if index < v.size_ then v.items_.index index else none

/-- Write `(*this)[index] = x` through `operator[](size_t index)`. -/
def SimpleVector.assign {α : Type} (v : SimpleVector α) (index : Nat) (x : α) :
    Option (SimpleVector α) :=
  if index < v.size_ then
    match v.items_.assign index x with
    | none => none
    | some items => some { items_ := items, size_ := v.size_, capacity_ := v.capacity_ }
  else none

/-- The method `swap(SimpleVector& other)`: new `(this, other)`. -/
def SimpleVector.swap {α : Type} (v other : SimpleVector α) : SimpleVector α × SimpleVector α :=
  ({ items_ := (v.items_.swap other.items_).1, size_ := other.size_,
     capacity_ := other.capacity_ },
   { items_ := (v.items_.swap other.items_).2, size_ := v.size_, capacity_ := v.capacity_ })

/-- The method `Clear()`. -/
def SimpleVector.Clear {α : Type} (v : SimpleVector α) : SimpleVector α :=
  { items_ := v.items_, size_ := 0, capacity_ := v.capacity_ }

/-- The method `PopBack()`. -/
def SimpleVector.PopBack {α : Type} (v : SimpleVector α) : SimpleVector α :=
  if !v.IsEmpty then { items_ := v.items_, size_ := v.size_ - 1, capacity_ := v.capacity_ }
  else v

/-- The method `At(size_t index)` (both overloads). -/
def SimpleVector.At {α : Type} (v : SimpleVector α) (index : Nat) : Outcome α (SimpleVector α) :=
  if index ≥ v.size_ then .out_of_range v
  else
    match v.index index with
    | none => .undefined
    | some x => .ok x v

/-- The method `Resize(size_t new_size)`. -/
def SimpleVector.Resize {α : Type} [Inhabited α] (v : SimpleVector α) (new_size : Nat) :
    Outcome Unit (SimpleVector α) :=
  if new_size < v.size_ then
    .ok () { items_ := v.items_, size_ := new_size, capacity_ := v.capacity_ }
  else if new_size < v.capacity_ then
    match fill_range default v.items_.Get v.size_ new_size with
    | none => .undefined
    | some p => .ok () { items_ := (v.withRaw p).items_, size_ := new_size,
                         capacity_ := v.capacity_ }
  else
    let new_vector : ArrayPtr α := ArrayPtr.ofSize (new_size * 2)
    let moved : Option (RawPtr α) :=
      if v.capacity_ ≠ 0 then std_move v.items_.Get 0 v.size_ new_vector.Get 0
      else some new_vector.Get
    match moved with
    | none => .undefined
    | some p1 =>
      match fill_range default p1 v.size_ new_size with
      | none => .undefined
      | some p2 =>
        .ok () { items_ := { raw_ptr_ := p2, size_ := new_vector.size_ }, size_ := new_size,
                 capacity_ := new_size * 2 }

/-- The method `Reserve(size_t new_capacity)`. -/
def SimpleVector.Reserve {α : Type} [Inhabited α] (v : SimpleVector α) (new_capacity : Nat) :
    Outcome Unit (SimpleVector α) :=
  if v.capacity_ ≥ new_capacity then .ok () v
  else
    let new_vector : ArrayPtr α := ArrayPtr.ofSize new_capacity
    let moved : Option (RawPtr α) :=
      if v.capacity_ ≠ 0 then std_move v.items_.Get 0 v.size_ new_vector.Get 0
      else some new_vector.Get
    match moved with
    | none => .undefined
    | some p1 =>
      match fill_range default p1 v.size_ new_capacity with
      | none => .undefined
      | some p2 =>
        .ok () { items_ := { raw_ptr_ := p2, size_ := new_vector.size_ }, size_ := v.size_,
                 capacity_ := new_capacity }

/-- The method `PushBack(const Type& item)`.  In `(*this)[size_++] = item` the
increment is complete before `operator[]` runs, and `Resize(++size_)` runs with
`size_` already incremented. -/
def SimpleVector.PushBack {α : Type} [Inhabited α] (v : SimpleVector α) (item : α) :
    Outcome Unit (SimpleVector α) :=
  if v.size_ < v.capacity_ then
    let v1 : SimpleVector α := { items_ := v.items_, size_ := v.size_ + 1,
                                 capacity_ := v.capacity_ }
    match v1.assign v.size_ item with
    | none => .undefined
    | some v2 => .ok () v2
  else
    let v1 : SimpleVector α := { items_ := v.items_, size_ := v.size_ + 1,
                                 capacity_ := v.capacity_ }
    match v1.Resize v1.size_ with
    | .ok _ v2 =>
      match v2.assign (v2.size_ - 1) item with
      | none => .undefined
      | some v3 => .ok () v3
    | _ => .undefined

/-- The method `PushBack(Type&& item)`: the same statements as the copying
overload, with `std::move(item)` on the right-hand sides. -/
def SimpleVector.PushBack_move {α : Type} [Inhabited α] (v : SimpleVector α) (item : α) :
    Outcome Unit (SimpleVector α) :=
  if v.size_ < v.capacity_ then
    let v1 : SimpleVector α := { items_ := v.items_, size_ := v.size_ + 1,
                                 capacity_ := v.capacity_ }
    match v1.assign v.size_ item with
    | none => .undefined
    | some v2 => .ok () v2
  else
    let v1 : SimpleVector α := { items_ := v.items_, size_ := v.size_ + 1,
                                 capacity_ := v.capacity_ }
    match v1.Resize v1.size_ with
    | .ok _ v2 =>
      match v2.assign (v2.size_ - 1) item with
      | none => .undefined
      | some v3 => .ok () v3
    | _ => .undefined

/-- The growth step shared by both `Insert` overloads:
`if (size_ == capacity_) { size_ != 0 ? Reserve(2 * capacity_) : Reserve(1); }`. -/
def SimpleVector.grow_if_full {α : Type} [Inhabited α] (v : SimpleVector α) :
    Outcome Unit (SimpleVector α) :=
  if v.size_ = v.capacity_ then
    (if v.size_ ≠ 0 then v.Reserve (2 * v.capacity_) else v.Reserve 1)
  else .ok () v

/-- The method `Insert(ConstIterator pos, const Type& value)`; `pos` is the
offset of the position from `begin()`. -/
def SimpleVector.Insert {α : Type} [Inhabited α] (v : SimpleVector α) (pos : Iterator)
    (value : α) : Outcome Iterator (SimpleVector α) :=
  if pos < v.begin ∨ pos > v.end_ then .out_of_range v
  else
    let distance : Int := pos - v.begin
    match v.grow_if_full with
    | .ok _ v1 =>
      match std_copy_backward v1.items_.Get distance.toNat v1.size_ (v1.size_ + 1) with
      | none => .undefined
      | some p1 =>
        match p1.store distance.toNat value with
        | none => .undefined
        | some p2 => .ok (v1.begin + distance) (v1.withRaw p2)
    | _ => .undefined

/-- The method `Insert(ConstIterator pos, Type&& value)`; `pos` is the offset
of the position from `begin()`.  The final `value = std::move(Type{})` resets
the argument of the caller and does not touch the vector. -/
def SimpleVector.Insert_move {α : Type} [Inhabited α] (v : SimpleVector α) (pos : Iterator)
    (value : α) : Outcome Iterator (SimpleVector α) :=
  if pos < v.begin ∨ pos > v.end_ then .out_of_range v
  else
    let distance : Int := pos - v.begin
    match v.grow_if_full with
    | .ok _ v1 =>
      match std_copy_backward v1.items_.Get distance.toNat v1.size_ (v1.size_ + 1) with
      | none => .undefined
      | some p1 =>
        match (v1.withRaw p1).items_.assign distance.toNat value with
        | none => .undefined
        | some items =>
          .ok (v1.begin + distance)
            { items_ := items, size_ := v1.size_ + 1, capacity_ := v1.capacity_ }
    | _ => .undefined

/-- The method `Erase(ConstIterator pos)`; `pos` is the offset of the position
from `begin()`. -/
def SimpleVector.Erase {α : Type} (v : SimpleVector α) (pos : Iterator) :
    Outcome Iterator (SimpleVector α) :=
  if pos < v.begin ∨ pos ≥ v.end_ then .out_of_range v
  else
    let distance : Int := pos - v.begin
    match std_move_self v.items_.Get (distance.toNat + 1) v.size_ distance.toNat with
    | none => .undefined
    | some p =>
      .ok (v.begin + distance)
        { items_ := (v.withRaw p).items_, size_ := v.size_ - 1, capacity_ := v.capacity_ }

/-- The constructor `SimpleVector(size_t size, const Type& value)` (the
overload taking `Type&&` runs the same assignments in a hand-written loop);
`this` starts from the default member initialisers. -/
def SimpleVector.ofSizeValue {α : Type} [Inhabited α] (size : Nat) (value : α) :
    Option (SimpleVector α) :=
  let tmp : ArrayPtr α := ArrayPtr.ofSize size
  match fill_range value tmp.Get 0 size with
  | none => none
  | some p =>
    let tmp1 : ArrayPtr α := { raw_ptr_ := p, size_ := tmp.size_ }
    some { items_ := ((({} : SimpleVector α).items_).swap tmp1).1, size_ := size,
           capacity_ := size }

/-- The constructor `SimpleVector(size_t size)`:
`SimpleVector tmp(size, Type{}); swap(tmp);`. -/
def SimpleVector.ofSize {α : Type} [Inhabited α] (size : Nat) : Option (SimpleVector α) :=
  match SimpleVector.ofSizeValue size (default : α) with
  | none => none
  | some tmp => some ((({} : SimpleVector α).swap tmp).1)

/-- The constructor `SimpleVector(std::initializer_list<Type> init)`:
`SimpleVector tmp(init.size()); std::copy(init.begin(), init.end(), tmp.begin()); swap(tmp);`. -/
def SimpleVector.ofInitList {α : Type} [Inhabited α] (init : List α) : Option (SimpleVector α) :=
  match (SimpleVector.ofSize init.length : Option (SimpleVector α)) with
  | none => none
  | some tmp =>
    match std_move (.heap init) 0 init.length tmp.items_.Get 0 with
    | none => none
    | some p => some ((({} : SimpleVector α).swap (tmp.withRaw p)).1)

/-- Representation invariant assumed of a vector before a call:
`size_ ≤ capacity_`, `capacity_` is the slot count recorded in `items_`, and
that count is the number of slots really allocated. -/
def SimpleVector.Inv {α : Type} (v : SimpleVector α) : Prop :=
  v.size_ ≤ v.capacity_ ∧ v.capacity_ = v.items_.size_ ∧ v.items_.size_ = v.items_.raw_ptr_.slots

instance {α : Type} (v : SimpleVector α) : Decidable v.Inv := by
  unfold SimpleVector.Inv; infer_instance

/-- The vector `{1, 2, 3}` with size 3 and capacity 3. -/
def vec123 : SimpleVector Int :=
  { items_ := { raw_ptr_ := .heap [1, 2, 3], size_ := 3 }, size_ := 3, capacity_ := 3 }

/-- The vector of size 2 and capacity 5 whose storage is `1, 2, 3, 7, 8`: the
slots past the size hold stale values. -/
def vecStale : SimpleVector Int :=
  { items_ := { raw_ptr_ := .heap [1, 2, 3, 7, 8], size_ := 5 }, size_ := 2, capacity_ := 5 }

/-! ## Further constructors, assignment and comparison -/

/-- The move constructor `ArrayPtr(ArrayPtr&& other)`: new `(this, other)`.
`this` starts from the default member initialisers; the temporary
`tmp(other.size_)` ends up empty and the array it allocated is freed by
`other.Clear()`. -/
def ArrayPtr.moveCtor {α : Type} [Inhabited α] (other : ArrayPtr α) : ArrayPtr α × ArrayPtr α :=
  let tmp : ArrayPtr α := ArrayPtr.ofSize other.size_
  let s1 : ArrayPtr α × ArrayPtr α := tmp.swap other
  let s2 : ArrayPtr α × ArrayPtr α := ({} : ArrayPtr α).swap s1.1
  (s2.1, s1.2.Clear)

/-- The invariant of `ArrayPtr`: the buffer pointer is null if and only if the
recorded slot count is 0. -/
def ArrayPtr.NullIffEmpty {α : Type} (a : ArrayPtr α) : Prop :=
  a.raw_ptr_ = .null ↔ a.size_ = 0

/-- The class `ReserveProxyObj`. -/
structure ReserveProxyObj where
  capacity_ : Nat := 0
  deriving DecidableEq, Repr

/-- The method `ReserveProxyObj::GetNewCapacity()`. -/
def ReserveProxyObj.GetNewCapacity (r : ReserveProxyObj) : Nat := r.capacity_

/-- The free function `Reserve(size_t capacity_to_reserve)`. -/
def Reserve (capacity_to_reserve : Nat) : ReserveProxyObj :=
  { capacity_ := capacity_to_reserve }

/-- The copy constructor `SimpleVector(const SimpleVector& other)`: the new
object and `other` (which is `const` and not written). -/
def SimpleVector.copyCtor {α : Type} [Inhabited α] (other : SimpleVector α) :
    Option (SimpleVector α × SimpleVector α) :=
  match (SimpleVector.ofSize other.GetSize : Option (SimpleVector α)) with
  | none => none
  | some new_vector =>
    let new_vector1 : SimpleVector α :=
      { items_ := new_vector.items_, size_ := new_vector.size_, capacity_ := other.capacity_ }
    match std_move other.items_.Get 0 other.size_ new_vector1.items_.Get 0 with
    | none => none
    | some p => some ((({} : SimpleVector α).swap (new_vector1.withRaw p)).1, other)

/-- The move constructor `SimpleVector(SimpleVector&& other)`: the new object
and `other` after the call. -/
def SimpleVector.moveCtor {α : Type} [Inhabited α] (other : SimpleVector α) :
    Option (SimpleVector α × SimpleVector α) :=
  match (SimpleVector.ofSize other.GetSize : Option (SimpleVector α)) with
  | none => none
  | some new_vector =>
    let new_vector1 : SimpleVector α :=
      { items_ := new_vector.items_, size_ := new_vector.size_, capacity_ := other.capacity_ }
    match std_move other.items_.Get 0 other.size_ new_vector1.items_.Get 0 with
    | none => none
    | some p => some ((({} : SimpleVector α).swap (new_vector1.withRaw p)).1, other.Clear)

/-- The constructor `SimpleVector(const ReserveProxyObj& capacity_to_reverse)`:
`SimpleVector tmp(capacity_to_reverse.GetNewCapacity()); swap(tmp); size_ = 0;`. -/
def SimpleVector.ofReserve {α : Type} [Inhabited α] (capacity_to_reverse : ReserveProxyObj) :
    Option (SimpleVector α) :=
  match (SimpleVector.ofSize capacity_to_reverse.GetNewCapacity : Option (SimpleVector α)) with
  | none => none
  | some tmp =>
    let this1 : SimpleVector α := (({} : SimpleVector α).swap tmp).1
    some { items_ := this1.items_, size_ := 0, capacity_ := this1.capacity_ }

/-- The assignment operators `operator=(const SimpleVector& rhs)` and
`operator=(SimpleVector&& rhs)`: both run `SimpleVector tmp(rhs); swap(tmp);`
(inside the second one `rhs` is an lvalue, so `tmp` is copy-constructed) unless
`this == &rhs`.  Returns the new `(this, rhs)`. -/
def SimpleVector.operator_assign {α : Type} [Inhabited α] (same_object : Bool)
    (v rhs : SimpleVector α) : Option (SimpleVector α × SimpleVector α) :=
  if same_object then some (v, rhs)
  else
    match rhs.copyCtor with
    | none => none
    | some (tmp, rhs1) => some ((v.swap tmp).1, rhs1)

/-- Loop of the three-iterator `std::equal(first1, last1, first2)`:
`for (; first1 != last1; ++first1, ++first2) if (!(*first1 == *first2)) return false;`
and `return true;`, with `n` iterations left. -/
def equal_loop {α : Type} [DecidableEq α] (p1 : RawPtr α) (first1 : Nat) (p2 : RawPtr α)
    (first2 : Nat) : Nat → Option Bool
  | 0 => some true
  | n + 1 =>
    match p1.load first1 with
    | none => none
    | some a =>
      match p2.load first2 with
      | none => none
      | some b => if a = b then equal_loop p1 (first1 + 1) p2 (first2 + 1) n else some false

/-- The algorithm `std::equal(p1 + first1, p1 + last1, p2 + first2)`. -/
def std_equal {α : Type} [DecidableEq α] (p1 : RawPtr α) (first1 last1 : Nat) (p2 : RawPtr α)
    (first2 : Nat) : Option Bool :=
  if first1 ≤ last1 then equal_loop p1 first1 p2 first2 (last1 - first1) else none

/-- The free `operator==(lhs, rhs)`: `true` when both references name the same
object, otherwise `std::equal(lhs.begin(), lhs.end(), rhs.begin())`. -/
def SimpleVector.operator_eq {α : Type} [DecidableEq α] (same_object : Bool)
    (lhs rhs : SimpleVector α) : Option Bool :=
  if same_object then some true
  else std_equal lhs.items_.Get 0 lhs.size_ rhs.items_.Get 0

/-- The free `operator!=(lhs, rhs)`: `!operator==(lhs, rhs)`. -/
def SimpleVector.operator_ne {α : Type} [DecidableEq α] (same_object : Bool)
    (lhs rhs : SimpleVector α) : Option Bool :=
  match SimpleVector.operator_eq same_object lhs rhs with
  | none => none
  | some b => some (!b)

/-- Loop of `std::lexicographical_compare` with `n1` and `n2` elements left in
the two ranges. -/
def lexicographical_loop {α : Type} [LT α] [DecidableRel (fun a b : α => a < b)]
    (p1 : RawPtr α) (p2 : RawPtr α) : Nat → Nat → Nat → Nat → Option Bool
  | _, 0, _, n2 => some (n2 != 0)
  | _, _ + 1, _, 0 => some false
  | first1, n1 + 1, first2, n2 + 1 =>
    match p1.load first1 with
    | none => none
    | some a =>
      match p2.load first2 with
      | none => none
      | some b =>
        if a < b then some true
        else if b < a then some false
        else lexicographical_loop p1 p2 (first1 + 1) n1 (first2 + 1) n2

/-- The free `operator<(lhs, rhs)`:
`std::lexicographical_compare(lhs.begin(), lhs.end(), rhs.begin(), rhs.end())`. -/
def SimpleVector.operator_lt {α : Type} [LT α] [DecidableRel (fun a b : α => a < b)]
    (lhs rhs : SimpleVector α) : Option Bool :=
  lexicographical_loop lhs.items_.Get rhs.items_.Get 0 lhs.size_ 0 rhs.size_

/-- The vector `{1, 2}` with size 2 and capacity 2. -/
def vec12 : SimpleVector Int :=
  { items_ := { raw_ptr_ := .heap [1, 2], size_ := 2 }, size_ := 2, capacity_ := 2 }

/-- The vector with `size_` 2 and `capacity_` 5 whose buffer has only 2 slots
holding `1, 2`. -/
def vecShortBuffer : SimpleVector Int :=
  { items_ := { raw_ptr_ := .heap [1, 2], size_ := 2 }, size_ := 2, capacity_ := 5 }

/-! ## Raw memory lemmas -/

theorem RawPtr.load_eq_none {α : Type} (p : RawPtr α) (i : Nat) (h : p.slots ≤ i) :
    p.load i = none := by
  cases p with
  | null => rfl
  | heap cells => simpa [RawPtr.load, RawPtr.slots] using h

theorem RawPtr.load_isSome {α : Type} (p : RawPtr α) (i : Nat) (h : i < p.slots) :
    ∃ x, p.load i = some x := by
  cases p with
  | null => simp [RawPtr.slots] at h
  | heap cells =>
    simp only [RawPtr.slots] at h
    exact ⟨cells[i], by simp [RawPtr.load, h]⟩

theorem RawPtr.store_spec {α : Type} (p : RawPtr α) (i : Nat) (x : α) (h : i < p.slots) :
    ∃ q, p.store i x = some q ∧ q.slots = p.slots ∧
      ∀ j, q.load j = if j = i then some x else p.load j := by
  cases p with
  | null => simp [RawPtr.slots] at h
  | heap cells =>
    simp only [RawPtr.slots] at h
    refine ⟨.heap (cells.set i x), by simp [RawPtr.store, h], by simp [RawPtr.slots], ?_⟩
    intro j
    simp only [RawPtr.load, List.getElem?_set]
    by_cases hji : j = i
    · subst hji; simp [h]
    · have hij : ¬ i = j := fun e => hji e.symm
      simp [hji, hij]

theorem RawPtr.store_eq_none {α : Type} (p : RawPtr α) (i : Nat) (x : α) (h : p.slots ≤ i) :
    p.store i x = none := by
  cases p with
  | null => rfl
  | heap cells =>
    simp only [RawPtr.slots] at h
    simp [RawPtr.store, Nat.not_lt.mpr h]

theorem fill_loop_spec {α : Type} (value : α) (n : Nat) :
    ∀ (p : RawPtr α) (it : Nat), it + n ≤ p.slots →
      ∃ q, fill_loop value p it n = some q ∧ q.slots = p.slots ∧
        ∀ i, q.load i = if it ≤ i ∧ i < it + n then some value else p.load i := by
  induction n with
  | zero =>
    intro p it _
    refine ⟨p, rfl, rfl, ?_⟩
    intro i
    have : ¬ (it ≤ i ∧ i < it + 0) := by omega
    rw [if_neg this]
  | succ n ih =>
    intro p it h
    obtain ⟨p1, hs, hl, hg⟩ := RawPtr.store_spec p it value (by omega)
    obtain ⟨q, hq, hql, hqg⟩ := ih p1 (it + 1) (by omega)
    refine ⟨q, by simp [fill_loop, hs, hq], by omega, ?_⟩
    intro i
    rw [hqg i, hg i]
    by_cases h1 : it + 1 ≤ i ∧ i < it + 1 + n
    · have h2 : it ≤ i ∧ i < it + (n + 1) := by omega
      simp [h1, h2]
    · by_cases h3 : i = it
      · have h2 : it ≤ i ∧ i < it + (n + 1) := by omega
        simp [h1, h2, h3]
      · have h2 : ¬ (it ≤ i ∧ i < it + (n + 1)) := by omega
        simp [h1, h2, h3]

theorem fill_range_spec {α : Type} (value : α) (p : RawPtr α) (first last : Nat)
    (h1 : first ≤ last) (h2 : last ≤ p.slots) :
    ∃ q, fill_range value p first last = some q ∧ q.slots = p.slots ∧
      ∀ i, q.load i = if first ≤ i ∧ i < last then some value else p.load i := by
  obtain ⟨q, hq, hl, hg⟩ := fill_loop_spec value (last - first) p first (by omega)
  refine ⟨q, by simp [fill_range, h1, hq], hl, ?_⟩
  intro i
  rw [hg i]
  have : first + (last - first) = last := by omega
  rw [this]

theorem copy_loop_spec {α : Type} (src : RawPtr α) (n : Nat) :
    ∀ (dst : RawPtr α) (first d_first : Nat), first + n ≤ src.slots → d_first + n ≤ dst.slots →
      ∃ q, copy_loop src first dst d_first n = some q ∧ q.slots = dst.slots ∧
        ∀ i, q.load i =
          if d_first ≤ i ∧ i < d_first + n then src.load (first + (i - d_first))
          else dst.load i := by
  induction n with
  | zero =>
    intro dst first d _ _
    refine ⟨dst, rfl, rfl, ?_⟩
    intro i
    have : ¬ (d ≤ i ∧ i < d + 0) := by omega
    rw [if_neg this]
  | succ n ih =>
    intro dst first d hs hd
    obtain ⟨x, hx⟩ := RawPtr.load_isSome src first (by omega)
    obtain ⟨p1, hst, hl, hg⟩ := RawPtr.store_spec dst d x (by omega)
    obtain ⟨q, hq, hql, hqg⟩ := ih p1 (first + 1) (d + 1) (by omega) (by omega)
    refine ⟨q, by simp [copy_loop, hx, hst, hq], by omega, ?_⟩
    intro i
    rw [hqg i, hg i]
    by_cases h1 : d + 1 ≤ i ∧ i < d + 1 + n
    · have h2 : d ≤ i ∧ i < d + (n + 1) := by omega
      have h3 : first + 1 + (i - (d + 1)) = first + (i - d) := by omega
      simp [h1, h2, h3]
    · by_cases h3 : i = d
      · have h2 : d ≤ i ∧ i < d + (n + 1) := by omega
        subst h3
        simp [h1, h2, hx]
      · have h2 : ¬ (d ≤ i ∧ i < d + (n + 1)) := by omega
        simp [h1, h2, h3]

theorem std_move_spec {α : Type} (src dst : RawPtr α) (last : Nat)
    (hs : last ≤ src.slots) (hd : last ≤ dst.slots) :
    ∃ q, std_move src 0 last dst 0 = some q ∧ q.slots = dst.slots ∧
      ∀ i, q.load i = if i < last then src.load i else dst.load i := by
  obtain ⟨q, hq, hl, hg⟩ := copy_loop_spec src last dst 0 0 (by omega) (by omega)
  refine ⟨q, by simp [std_move, hq], hl, ?_⟩
  intro i
  rw [hg i]
  simp

theorem move_self_loop_spec {α : Type} (n : Nat) :
    ∀ (p : RawPtr α) (first d_first : Nat), d_first ≤ first → first + n ≤ p.slots →
      ∃ q, move_self_loop p first d_first n = some q ∧ q.slots = p.slots ∧
        ∀ i, q.load i =
          if d_first ≤ i ∧ i < d_first + n then p.load (first + (i - d_first))
          else p.load i := by
  induction n with
  | zero =>
    intro p first d _ _
    refine ⟨p, rfl, rfl, ?_⟩
    intro i
    have : ¬ (d ≤ i ∧ i < d + 0) := by omega
    rw [if_neg this]
  | succ n ih =>
    intro p first d hdf hs
    obtain ⟨x, hx⟩ := RawPtr.load_isSome p first (by omega)
    obtain ⟨p1, hst, hl, hg⟩ := RawPtr.store_spec p d x (by omega)
    obtain ⟨q, hq, hql, hqg⟩ := ih p1 (first + 1) (d + 1) (by omega) (by omega)
    refine ⟨q, by simp [move_self_loop, hx, hst, hq], by omega, ?_⟩
    intro i
    rw [hqg i]
    by_cases h1 : d + 1 ≤ i ∧ i < d + 1 + n
    · have h2 : d ≤ i ∧ i < d + (n + 1) := by omega
      have h3 : first + 1 + (i - (d + 1)) = first + (i - d) := by omega
      have h4 : ¬ first + (i - d) = d := by omega
      rw [if_pos h1, if_pos h2, h3, hg, if_neg h4]
    · rw [if_neg h1, hg]
      by_cases h3 : i = d
      · have h2 : d ≤ i ∧ i < d + (n + 1) := by omega
        subst h3
        simp [h2, hx]
      · have h2 : ¬ (d ≤ i ∧ i < d + (n + 1)) := by omega
        rw [if_neg h3, if_neg h2]

theorem std_move_self_spec {α : Type} (p : RawPtr α) (first last d_first : Nat)
    (h1 : first ≤ last) (h2 : d_first ≤ first) (h3 : last ≤ p.slots) :
    ∃ q, std_move_self p first last d_first = some q ∧ q.slots = p.slots ∧
      ∀ i, q.load i =
        if d_first ≤ i ∧ i < d_first + (last - first) then p.load (first + (i - d_first))
        else p.load i := by
  obtain ⟨q, hq, hl, hg⟩ := move_self_loop_spec (last - first) p first d_first h2 (by omega)
  exact ⟨q, by simp [std_move_self, h1, hq], hl, hg⟩

theorem backward_loop_spec {α : Type} (n : Nat) :
    ∀ (p : RawPtr α) (last d_last : Nat), n ≤ last → last ≤ d_last → d_last ≤ p.slots →
      ∃ q, backward_loop p last d_last n = some q ∧ q.slots = p.slots ∧
        ∀ i, q.load i =
          if d_last - n ≤ i ∧ i < d_last then p.load (i + last - d_last)
          else p.load i := by
  induction n with
  | zero =>
    intro p last d _ _ _
    refine ⟨p, by cases last <;> cases d <;> rfl, rfl, ?_⟩
    intro i
    have : ¬ (d - 0 ≤ i ∧ i < d) := by omega
    rw [if_neg this]
  | succ n ih =>
    intro p last d hn hld hd
    obtain ⟨l, rfl⟩ : ∃ l, last = l + 1 := ⟨last - 1, by omega⟩
    obtain ⟨e, rfl⟩ : ∃ e, d = e + 1 := ⟨d - 1, by omega⟩
    obtain ⟨x, hx⟩ := RawPtr.load_isSome p l (by omega)
    obtain ⟨p1, hst, hl, hg⟩ := RawPtr.store_spec p e x (by omega)
    obtain ⟨q, hq, hql, hqg⟩ := ih p1 l e (by omega) (by omega) (by omega)
    refine ⟨q, by simp [backward_loop, hx, hst, hq], by omega, ?_⟩
    intro i
    rw [hqg i]
    by_cases h1 : e - n ≤ i ∧ i < e
    · have h2 : e + 1 - (n + 1) ≤ i ∧ i < e + 1 := by omega
      have h3 : i + (l + 1) - (e + 1) = i + l - e := by omega
      have h4 : ¬ i + l - e = e := by omega
      rw [if_pos h1, if_pos h2, h3, hg, if_neg h4]
    · rw [if_neg h1, hg]
      by_cases h3 : i = e
      · have h2 : e + 1 - (n + 1) ≤ i ∧ i < e + 1 := by omega
        have h4 : i + (l + 1) - (e + 1) = l := by omega
        rw [if_pos h3, if_pos h2, h4, hx]
      · have h2 : ¬ (e + 1 - (n + 1) ≤ i ∧ i < e + 1) := by omega
        rw [if_neg h3, if_neg h2]

theorem std_copy_backward_spec {α : Type} (p : RawPtr α) (first last d_last : Nat)
    (h1 : first ≤ last) (h2 : last ≤ d_last) (h3 : d_last ≤ p.slots) :
    ∃ q, std_copy_backward p first last d_last = some q ∧ q.slots = p.slots ∧
      ∀ i, q.load i =
        if d_last - (last - first) ≤ i ∧ i < d_last then p.load (i + last - d_last)
        else p.load i := by
  obtain ⟨q, hq, hl, hg⟩ := backward_loop_spec (last - first) p last d_last (by omega) h2 h3
  exact ⟨q, by simp [std_copy_backward, h1, hq], hl, hg⟩

/-! ## ArrayPtr and SimpleVector lemmas -/

theorem ArrayPtr.ofSize_size {α : Type} [Inhabited α] (n : Nat) :
    (ArrayPtr.ofSize n : ArrayPtr α).size_ = n := by
  unfold ArrayPtr.ofSize
  split <;> rfl

theorem ArrayPtr.ofSize_slots {α : Type} [Inhabited α] (n : Nat) :
    (ArrayPtr.ofSize n : ArrayPtr α).raw_ptr_.slots = n := by
  unfold ArrayPtr.ofSize
  split
  · simp [RawPtr.slots, *]
  · simp [RawPtr.slots]

theorem ArrayPtr.ofSize_load {α : Type} [Inhabited α] (n i : Nat) :
    (ArrayPtr.ofSize n : ArrayPtr α).raw_ptr_.load i = if i < n then some default else none := by
  unfold ArrayPtr.ofSize
  split
  · have : ¬ i < n := by omega
    simp [RawPtr.load, this]
  · simp [RawPtr.load, List.getElem?_replicate]

theorem SimpleVector.index_eq_load {α : Type} (v : SimpleVector α) (i : Nat)
    (h1 : i < v.size_) (h2 : v.size_ ≤ v.items_.size_) :
    v.index i = v.items_.raw_ptr_.load i := by
  have : i < v.items_.size_ := by omega
  simp [SimpleVector.index, ArrayPtr.index, h1, this]

theorem SimpleVector.index_isSome {α : Type} (v : SimpleVector α) (i : Nat)
    (hinv : v.Inv) (h : i < v.size_) : ∃ a, v.index i = some a := by
  obtain ⟨h1, h2, h3⟩ := hinv
  rw [SimpleVector.index_eq_load v i h (by omega)]
  exact RawPtr.load_isSome _ _ (by omega)

/-- Moving the live range into a freshly allocated array of `c` slots, the
first step of the reallocating branches of `Resize` and `Reserve`. -/
theorem SimpleVector.moved_spec {α : Type} [Inhabited α] (v : SimpleVector α) (c : Nat)
    (hs : v.size_ ≤ v.items_.raw_ptr_.slots) (h0 : v.capacity_ = 0 → v.size_ = 0)
    (hc : v.size_ ≤ c) :
    ∃ p1, (if v.capacity_ ≠ 0 then
            std_move v.items_.Get 0 v.size_ (ArrayPtr.ofSize c : ArrayPtr α).Get 0
          else some (ArrayPtr.ofSize c : ArrayPtr α).Get) = some p1 ∧ p1.slots = c ∧
      ∀ i, p1.load i =
        if i < v.size_ then v.items_.raw_ptr_.load i
        else if i < c then some default else none := by
  by_cases hcap : v.capacity_ = 0
  · refine ⟨(ArrayPtr.ofSize c : ArrayPtr α).Get, by simp [hcap], ArrayPtr.ofSize_slots c, ?_⟩
    intro i
    have : ¬ i < v.size_ := by have := h0 hcap; omega
    rw [if_neg this]
    exact ArrayPtr.ofSize_load c i
  · obtain ⟨q, hq, hl, hg⟩ := std_move_spec v.items_.raw_ptr_
      (ArrayPtr.ofSize c : ArrayPtr α).raw_ptr_ v.size_ hs (by rw [ArrayPtr.ofSize_slots]; exact hc)
    refine ⟨q, by simp [hcap, ArrayPtr.Get, hq], by rw [hl, ArrayPtr.ofSize_slots], ?_⟩
    intro i
    rw [hg i, ArrayPtr.ofSize_load]

theorem SimpleVector.Reserve_grow {α : Type} [Inhabited α] (v : SimpleVector α) (c : Nat)
    (hinv : v.Inv) (hc : v.capacity_ < c) :
    ∃ w, v.Reserve c = .ok () w ∧ w.size_ = v.size_ ∧ w.capacity_ = c ∧ w.items_.size_ = c ∧
      w.items_.raw_ptr_.slots = c ∧
      ∀ i, w.items_.raw_ptr_.load i =
        if i < v.size_ then v.items_.raw_ptr_.load i
        else if i < c then some default else none := by
  obtain ⟨h1, h2, h3⟩ := hinv
  obtain ⟨p1, hm, hs1, hg1⟩ := SimpleVector.moved_spec v c (by omega) (by omega) (by omega)
  obtain ⟨p2, hf, hs2, hg2⟩ := fill_range_spec default p1 v.size_ c (by omega) (by omega)
  refine ⟨{ items_ := { raw_ptr_ := p2, size_ := c }, size_ := v.size_, capacity_ := c },
    ?_, rfl, rfl, rfl, by simp only; omega, ?_⟩
  · unfold SimpleVector.Reserve
    rw [if_neg (by omega)]
    simp only [hm, hf, ArrayPtr.ofSize_size]
  · intro i
    simp only
    rw [hg2 i, hg1 i]
    by_cases hi : i < v.size_
    · have : ¬ (v.size_ ≤ i ∧ i < c) := by omega
      rw [if_neg this, if_pos hi]
    · by_cases hic : i < c
      · have : v.size_ ≤ i ∧ i < c := by omega
        rw [if_pos this, if_neg hi, if_pos hic]
      · have : ¬ (v.size_ ≤ i ∧ i < c) := by omega
        rw [if_neg this]

/-- The growth step of `Insert` on a vector satisfying the invariant leaves a
vector with the same live elements and at least one free slot. -/
theorem SimpleVector.grow_if_full_spec {α : Type} [Inhabited α] (v : SimpleVector α)
    (hinv : v.Inv) :
    ∃ w, v.grow_if_full = .ok () w ∧ w.Inv ∧ w.size_ = v.size_ ∧ w.size_ < w.capacity_ ∧
      (w.capacity_ = if v.size_ = v.capacity_ then (if v.capacity_ = 0 then 1 else 2 * v.capacity_)
        else v.capacity_) ∧
      ∀ i, i < v.size_ → w.items_.raw_ptr_.load i = v.items_.raw_ptr_.load i := by
  by_cases hfull : v.size_ = v.capacity_
  · by_cases h0 : v.size_ = 0
    · obtain ⟨w, hw, hsz, hcap, his, hsl, hg⟩ := SimpleVector.Reserve_grow v 1 hinv (by omega)
      refine ⟨w, ?_, ⟨by omega, by omega, by omega⟩, hsz, by omega, ?_, ?_⟩
      · unfold SimpleVector.grow_if_full
        rw [if_pos hfull, if_neg (by simpa using h0), hw]
      · have : v.capacity_ = 0 := by omega
        simp [hfull, this, hcap]
      · intro i hi
        rw [hg i, if_pos hi]
    · obtain ⟨w, hw, hsz, hcap, his, hsl, hg⟩ :=
        SimpleVector.Reserve_grow v (2 * v.capacity_) hinv (by omega)
      refine ⟨w, ?_, ⟨by omega, by omega, by omega⟩, hsz, by omega, ?_, ?_⟩
      · unfold SimpleVector.grow_if_full
        rw [if_pos hfull, if_pos h0, hw]
      · have : ¬ v.capacity_ = 0 := by omega
        simp [hfull, this, hcap]
      · intro i hi
        rw [hg i, if_pos hi]
  · have hlt : v.size_ < v.capacity_ := by have := hinv.1; omega
    refine ⟨v, by simp [SimpleVector.grow_if_full, hfull], hinv, rfl, hlt, by simp [hfull], ?_⟩
    intro i _
    rfl

/-- Full description of `Resize(m)` on a vector satisfying the invariant. -/
theorem SimpleVector.Resize_ok {α : Type} [Inhabited α] (v : SimpleVector α) (m : Nat)
    (hinv : v.Inv) :
    ∃ w, v.Resize m = .ok () w ∧ w.Inv ∧ w.size_ = m ∧
      (w.capacity_ = if m < v.size_ ∨ m < v.capacity_ then v.capacity_ else m * 2) ∧
      (∀ i, i < v.size_ → i < m → w.items_.raw_ptr_.load i = v.items_.raw_ptr_.load i) ∧
      (∀ i, v.size_ ≤ i → i < m → w.items_.raw_ptr_.load i = some default) := by
  obtain ⟨h1, h2, h3⟩ := hinv
  by_cases hlt : m < v.size_
  · refine ⟨{ items_ := v.items_, size_ := m, capacity_ := v.capacity_ }, ?_,
      ⟨by simp only; omega, h2, h3⟩, rfl, by simp [hlt], ?_, ?_⟩
    · unfold SimpleVector.Resize
      rw [if_pos hlt]
    · intro i _ _
      rfl
    · intro i hi hm
      omega
  · by_cases hcap : m < v.capacity_
    · obtain ⟨q, hq, hl, hg⟩ := fill_range_spec default v.items_.raw_ptr_ v.size_ m
        (by omega) (by omega)
      refine ⟨{ items_ := { raw_ptr_ := q, size_ := v.items_.size_ }, size_ := m,
                capacity_ := v.capacity_ }, ?_, ⟨by simp only; omega, h2, by simp only; omega⟩,
        rfl, by simp [hcap], ?_, ?_⟩
      · unfold SimpleVector.Resize
        rw [if_neg hlt, if_pos hcap]
        simp only [ArrayPtr.Get, hq, SimpleVector.withRaw]
      · intro i hi _
        simp only
        rw [hg i, if_neg (by omega)]
      · intro i hi hm
        simp only
        rw [hg i, if_pos ⟨hi, hm⟩]
    · obtain ⟨p1, hm1, hs1, hg1⟩ := SimpleVector.moved_spec v (m * 2) (by omega) (by omega)
        (by omega)
      obtain ⟨p2, hf, hs2, hg2⟩ := fill_range_spec default p1 v.size_ m (by omega) (by omega)
      have hno : ¬ (m < v.size_ ∨ m < v.capacity_) := by omega
      refine ⟨{ items_ := { raw_ptr_ := p2, size_ := m * 2 }, size_ := m, capacity_ := m * 2 },
        ?_, ⟨by simp only; omega, rfl, by simp only; omega⟩, rfl, by simp [hno], ?_, ?_⟩
      · unfold SimpleVector.Resize
        rw [if_neg hlt, if_neg hcap]
        simp only [hm1, hf, ArrayPtr.ofSize_size]
      · intro i hi _
        simp only
        rw [hg2 i, if_neg (by omega), hg1 i, if_pos hi]
      · intro i hi hm
        simp only
        rw [hg2 i, if_pos ⟨hi, hm⟩]

theorem copy_loop_overrun {α : Type} (src : RawPtr α) (n : Nat) :
    ∀ (dst : RawPtr α) (first d_first : Nat), first ≤ src.slots → src.slots < first + n →
      copy_loop src first dst d_first n = none := by
  induction n with
  | zero =>
    intro dst first d h1 h2
    omega
  | succ n ih =>
    intro dst first d h1 h2
    by_cases hf : first = src.slots
    · have : src.load first = none := RawPtr.load_eq_none src first (by omega)
      simp [copy_loop, this]
    · obtain ⟨x, hx⟩ := RawPtr.load_isSome src first (by omega)
      cases hst : dst.store d x with
      | none => simp [copy_loop, hx, hst]
      | some q =>
        have := ih q (first + 1) (d + 1) (by omega) (by omega)
        simp [copy_loop, hx, hst, this]

/-- A call `std::move(src, src + last, dst)` whose source range is longer than
the source array reads past the end of that array. -/
theorem std_move_overrun {α : Type} (src dst : RawPtr α) (last : Nat) (h : src.slots < last) :
    std_move src 0 last dst 0 = none := by
  have := copy_loop_overrun src last dst 0 0 (Nat.zero_le _) (by omega)
  simp [std_move, this]

/-- When there is room (`size_ < capacity_`) `PushBack` writes in place. -/
theorem SimpleVector.PushBack_room {α : Type} [Inhabited α] (v : SimpleVector α) (x : α)
    (hinv : v.Inv) (hroom : v.size_ < v.capacity_) :
    ∃ w, v.PushBack x = .ok () w ∧ v.PushBack_move x = .ok () w ∧ w.Inv ∧
      w.size_ = v.size_ + 1 ∧ w.capacity_ = v.capacity_ ∧ w.index v.size_ = some x ∧
      ∀ i, i < v.size_ → w.index i = v.index i := by
  obtain ⟨h1, h2, h3⟩ := hinv
  obtain ⟨q, hq, hl, hg⟩ := RawPtr.store_spec v.items_.raw_ptr_ v.size_ x (by omega)
  have hlt : v.size_ < v.items_.size_ := by omega
  have hcall : ∀ (w : SimpleVector α),
      w = { items_ := { raw_ptr_ := q, size_ := v.items_.size_ }, size_ := v.size_ + 1,
            capacity_ := v.capacity_ } →
      v.PushBack x = .ok () w ∧ v.PushBack_move x = .ok () w := by
    intro w hw
    subst hw
    constructor
    · unfold SimpleVector.PushBack
      rw [if_pos hroom]
      simp [SimpleVector.assign, ArrayPtr.assign, hlt, hq]
    · unfold SimpleVector.PushBack_move
      rw [if_pos hroom]
      simp [SimpleVector.assign, ArrayPtr.assign, hlt, hq]
  refine ⟨_, (hcall _ rfl).1, (hcall _ rfl).2, ⟨by simp only; omega, h2, by simp only; omega⟩,
    rfl, rfl, ?_, ?_⟩
  · rw [SimpleVector.index_eq_load _ _ (by simp only; omega) (by simp only; omega)]
    simp only
    rw [hg, if_pos rfl]
  · intro i hi
    rw [SimpleVector.index_eq_load _ _ (by simp only; omega) (by simp only; omega),
      SimpleVector.index_eq_load v i hi (by omega)]
    simp only
    rw [hg, if_neg (by omega)]

/-- On a full vector with a non-empty buffer both `PushBack` overloads run
`Resize(++size_)`, whose `std::move(begin(), end(), ...)` covers `size_ + 1`
slots of a buffer of `size_` slots. -/
theorem SimpleVector.PushBack_full_undefined {α : Type} [Inhabited α] (v : SimpleVector α)
    (x : α) (hinv : v.Inv) (hfull : v.size_ = v.capacity_) (hpos : 0 < v.capacity_) :
    v.PushBack x = .undefined ∧ v.PushBack_move x = .undefined := by
  obtain ⟨h1, h2, h3⟩ := hinv
  have hover : std_move v.items_.Get 0 (v.size_ + 1)
      (ArrayPtr.ofSize ((v.size_ + 1) * 2) : ArrayPtr α).Get 0 = none :=
    std_move_overrun _ _ _ (by simp only [ArrayPtr.Get]; omega)
  have hres : ({ items_ := v.items_, size_ := v.size_ + 1, capacity_ := v.capacity_ } :
      SimpleVector α).Resize (v.size_ + 1) = .undefined := by
    unfold SimpleVector.Resize
    simp only
    rw [if_neg (by omega), if_neg (by omega), if_pos (by omega), hover]
  constructor
  · unfold SimpleVector.PushBack
    rw [if_neg (by omega)]
    simp only [hres]
  · unfold SimpleVector.PushBack_move
    rw [if_neg (by omega)]
    simp only [hres]

theorem SimpleVector.ofSizeValue_spec {α : Type} [Inhabited α] (size : Nat) (value : α) :
    ∃ p, SimpleVector.ofSizeValue size value =
        some { items_ := { raw_ptr_ := p, size_ := size }, size_ := size, capacity_ := size } ∧
      p.slots = size ∧ ∀ i, p.load i = if i < size then some value else none := by
  obtain ⟨p, hp, hs, hg⟩ := fill_range_spec value (ArrayPtr.ofSize size : ArrayPtr α).raw_ptr_
    0 size (Nat.zero_le _) (by rw [ArrayPtr.ofSize_slots])
  refine ⟨p, ?_, by rw [hs, ArrayPtr.ofSize_slots], ?_⟩
  · unfold SimpleVector.ofSizeValue
    simp only [ArrayPtr.Get, hp, ArrayPtr.swap, ArrayPtr.ofSize_size]
  · intro i
    rw [hg i, ArrayPtr.ofSize_load]
    by_cases hi : i < size
    · rw [if_pos ⟨Nat.zero_le _, hi⟩, if_pos hi]
    · have : ¬ (0 ≤ i ∧ i < size) := by omega
      rw [if_neg this, if_neg hi, if_neg hi]

theorem SimpleVector.ofSize_spec {α : Type} [Inhabited α] (size : Nat) :
    ∃ p, (SimpleVector.ofSize size : Option (SimpleVector α)) =
        some { items_ := { raw_ptr_ := p, size_ := size }, size_ := size, capacity_ := size } ∧
      p.slots = size ∧ ∀ i, p.load i = if i < size then some default else none := by
  obtain ⟨p, hp, hs, hg⟩ := SimpleVector.ofSizeValue_spec size (default : α)
  refine ⟨p, ?_, hs, hg⟩
  unfold SimpleVector.ofSize
  simp only [hp, SimpleVector.swap, ArrayPtr.swap]

/-- Both the copy and the move constructor build a vector whose buffer has
exactly `other.size_` slots holding the live elements of `other`, and whose
`capacity_` field is copied from `other`. -/
theorem SimpleVector.copy_move_ctor_spec {α : Type} [Inhabited α] (other : SimpleVector α)
    (hs : other.size_ ≤ other.items_.raw_ptr_.slots) :
    ∃ p, other.copyCtor =
        some ({ items_ := { raw_ptr_ := p, size_ := other.size_ }, size_ := other.size_,
                capacity_ := other.capacity_ }, other) ∧
      other.moveCtor =
        some ({ items_ := { raw_ptr_ := p, size_ := other.size_ }, size_ := other.size_,
                capacity_ := other.capacity_ }, other.Clear) ∧
      p.slots = other.size_ ∧
      ∀ i, i < other.size_ → p.load i = other.items_.raw_ptr_.load i := by
  obtain ⟨q, hq, hqs, -⟩ := SimpleVector.ofSize_spec (α := α) other.size_
  obtain ⟨p, hp, hps, hpg⟩ := std_move_spec other.items_.raw_ptr_ q other.size_ hs (by omega)
  refine ⟨p, ?_, ?_, by omega, ?_⟩
  · unfold SimpleVector.copyCtor
    simp only [SimpleVector.GetSize, hq, ArrayPtr.Get, hp, SimpleVector.swap, ArrayPtr.swap,
      SimpleVector.withRaw]
  · unfold SimpleVector.moveCtor
    simp only [SimpleVector.GetSize, hq, ArrayPtr.Get, hp, SimpleVector.swap, ArrayPtr.swap,
      SimpleVector.withRaw]
  · intro i hi
    rw [hpg i, if_pos hi]

/-- Both `Insert` overloads return normally on a valid position of a vector
satisfying the invariant: after the growth step `w`, the shifted and written
buffer `p2` is adopted; only the moving overload increments the size. -/
theorem SimpleVector.Insert_both_ok {α : Type} [Inhabited α] (v : SimpleVector α) (k : Nat)
    (x : α) (hinv : v.Inv) (hk : k ≤ v.size_) :
    ∃ (w : SimpleVector α) (p2 : RawPtr α),
      v.Insert (k : Int) x = .ok (k : Int) (w.withRaw p2) ∧
      v.Insert_move (k : Int) x =
        .ok (k : Int) { items_ := { raw_ptr_ := p2, size_ := w.items_.size_ },
                        size_ := w.size_ + 1, capacity_ := w.capacity_ } ∧
      w.Inv ∧ w.size_ = v.size_ ∧ w.size_ < w.capacity_ ∧ p2.slots = w.capacity_ ∧
      (w.capacity_ = if v.size_ = v.capacity_ then (if v.capacity_ = 0 then 1 else 2 * v.capacity_)
        else v.capacity_) := by
  obtain ⟨w, hw, hwinv, hwsz, hwlt, hwcap, -⟩ := SimpleVector.grow_if_full_spec v hinv
  obtain ⟨hw1, hw2, hw3⟩ := hwinv
  obtain ⟨p1, hp1, hs1, -⟩ := std_copy_backward_spec w.items_.raw_ptr_ k w.size_
    (w.size_ + 1) (by omega) (by omega) (by omega)
  obtain ⟨p2, hp2, hs2, -⟩ := RawPtr.store_spec p1 k x (by omega)
  have hrange : ¬ ((k : Int) < v.begin ∨ (k : Int) > v.end_) := by
    simp only [SimpleVector.begin, SimpleVector.end_]
    omega
  have hka : k < w.items_.size_ := by omega
  refine ⟨w, p2, ?_, ?_, ⟨hw1, hw2, hw3⟩, hwsz, hwlt, by omega, hwcap⟩
  · unfold SimpleVector.Insert
    rw [if_neg hrange]
    simp only [hw, SimpleVector.begin, Int.sub_zero, Int.toNat_ofNat, ArrayPtr.Get, hp1, hp2,
      Int.zero_add]
  · unfold SimpleVector.Insert_move
    rw [if_neg hrange]
    simp only [hw, SimpleVector.begin, Int.sub_zero, Int.toNat_ofNat, ArrayPtr.Get, hp1,
      SimpleVector.withRaw, ArrayPtr.assign, hka, if_true, hp2, Int.zero_add]

/-- The default, size, size-and-value, initializer-list and reserve-proxy
constructors establish the representation invariant. -/
theorem SimpleVector.Inv_established {α : Type} [Inhabited α] (size : Nat) (value : α)
    (init : List α) (r : ReserveProxyObj) :
    ({} : SimpleVector α).Inv ∧
    (∃ w, SimpleVector.ofSizeValue size value = some w ∧ w.Inv) ∧
    (∃ w, (SimpleVector.ofSize size : Option (SimpleVector α)) = some w ∧ w.Inv) ∧
    (∃ w, SimpleVector.ofInitList init = some w ∧ w.Inv) ∧
    (∃ w, (SimpleVector.ofReserve r : Option (SimpleVector α)) = some w ∧ w.Inv ∧
      w.size_ = 0 ∧ w.capacity_ = r.GetNewCapacity) := by
  refine ⟨⟨Nat.le_refl _, rfl, rfl⟩, ?_, ?_, ?_, ?_⟩
  · obtain ⟨p, hp, hs, -⟩ := SimpleVector.ofSizeValue_spec size value
    exact ⟨_, hp, Nat.le_refl _, rfl, hs.symm⟩
  · obtain ⟨p, hp, hs, -⟩ := SimpleVector.ofSize_spec (α := α) size
    exact ⟨_, hp, Nat.le_refl _, rfl, hs.symm⟩
  · obtain ⟨q, hq, hqs, -⟩ := SimpleVector.ofSize_spec (α := α) init.length
    obtain ⟨p, hp, hps, -⟩ := std_move_spec (.heap init) q init.length
      (by simp [RawPtr.slots]) (by omega)
    refine ⟨{ items_ := { raw_ptr_ := p, size_ := init.length }, size_ := init.length,
              capacity_ := init.length }, ?_, Nat.le_refl _, rfl, by simp only; omega⟩
    unfold SimpleVector.ofInitList
    simp only [hq, ArrayPtr.Get, hp, SimpleVector.swap, ArrayPtr.swap, SimpleVector.withRaw]
  · obtain ⟨q, hq, hqs, -⟩ := SimpleVector.ofSize_spec (α := α) r.GetNewCapacity
    refine ⟨{ items_ := { raw_ptr_ := q, size_ := r.GetNewCapacity }, size_ := 0,
              capacity_ := r.GetNewCapacity }, ?_, ⟨Nat.zero_le _, rfl, hqs.symm⟩, rfl, rfl⟩
    unfold SimpleVector.ofReserve
    simp only [hq, SimpleVector.swap, ArrayPtr.swap]

/-- The mutating operations other than `PushBack` on a full vector preserve
the representation invariant (assignment and the copy and move constructors do
not: they are absent here). -/
theorem SimpleVector.Inv_preserved {α : Type} [Inhabited α] (v other : SimpleVector α)
    (k : Nat) (m : Nat) (x : α) (hinv : v.Inv) (hother : other.Inv) :
    v.PopBack.Inv ∧ v.Clear.Inv ∧ (v.swap other).1.Inv ∧ (v.swap other).2.Inv ∧
    (∃ w, v.Resize m = .ok () w ∧ w.Inv) ∧
    (∃ w, v.Reserve m = .ok () w ∧ w.Inv) ∧
    (k ≤ v.size_ → ∃ w1 w2 it1 it2, v.Insert (k : Int) x = .ok it1 w1 ∧ w1.Inv ∧
      v.Insert_move (k : Int) x = .ok it2 w2 ∧ w2.Inv) ∧
    (k < v.size_ → ∃ w it, v.Erase (k : Int) = .ok it w ∧ w.Inv) ∧
    (v.size_ < v.capacity_ → ∃ w, v.PushBack x = .ok () w ∧ v.PushBack_move x = .ok () w ∧
      w.Inv) := by
  obtain ⟨h1, h2, h3⟩ := hinv
  have hinv : v.Inv := ⟨h1, h2, h3⟩
  refine ⟨?_, ⟨Nat.zero_le _, h2, h3⟩, hother, hinv, ?_, ?_, ?_, ?_, ?_⟩
  · unfold SimpleVector.PopBack
    split
    · exact ⟨by simp only; omega, h2, h3⟩
    · exact hinv
  · obtain ⟨w, hw, hwinv, -⟩ := SimpleVector.Resize_ok v m hinv
    exact ⟨w, hw, hwinv⟩
  · by_cases hm : v.capacity_ ≥ m
    · refine ⟨v, ?_, hinv⟩
      unfold SimpleVector.Reserve
      rw [if_pos hm]
    · obtain ⟨w, hw, hsz, hcap, his, hsl, -⟩ := SimpleVector.Reserve_grow v m hinv (by omega)
      exact ⟨w, hw, by omega, by omega, by omega⟩
  · intro hk
    obtain ⟨w, p2, hi1, hi2, ⟨hw1, hw2, hw3⟩, hwsz, hwlt, hp2, -⟩ :=
      SimpleVector.Insert_both_ok v k x hinv hk
    refine ⟨_, _, _, _, hi1, ⟨hw1, hw2, ?_⟩, hi2, ⟨by simp only; omega, hw2, ?_⟩⟩
    · simp only [SimpleVector.withRaw]
      omega
    · simp only
      omega
  · intro hk
    obtain ⟨q, hq, hl, -⟩ := std_move_self_spec v.items_.raw_ptr_ (k + 1) v.size_ k
      (by omega) (by omega) (by omega)
    have hrange : ¬ ((k : Int) < v.begin ∨ (k : Int) ≥ v.end_) := by
      simp only [SimpleVector.begin, SimpleVector.end_]
      omega
    refine ⟨{ items_ := { raw_ptr_ := q, size_ := v.items_.size_ }, size_ := v.size_ - 1,
              capacity_ := v.capacity_ }, v.begin + (k : Int), ?_,
      ⟨by simp only; omega, h2, by simp only; omega⟩⟩
    unfold SimpleVector.Erase
    rw [if_neg hrange]
    simp only [SimpleVector.begin, Int.sub_zero, Int.toNat_ofNat, ArrayPtr.Get, hq,
      SimpleVector.withRaw]
  · intro hroom
    obtain ⟨w, hw1, hw2, hwinv, -⟩ := SimpleVector.PushBack_room v x hinv hroom
    exact ⟨w, hw1, hw2, hwinv⟩

/-- The initializer-list constructor builds `vec123` from `{1, 2, 3}`, and the
default constructor builds a vector that satisfies the invariant. -/
theorem vec123_constructed :
    SimpleVector.ofInitList [1, 2, 3] = some vec123 ∧ ({} : SimpleVector Int).Inv := by
  decide

/-! ## Claims -/

/-- C1 fails on the code: `{1, 2, 3}` has size 3 = capacity 3 = allocated
slots, and `PushBack(4)` (either overload) runs `Resize(++size_)`, which moves
the range `[begin(), begin() + 4)` out of the buffer of 3 slots: the call has
undefined behaviour instead of producing `{1, 2, 3, 4}`. -/
theorem PushBack_full_reads_past_buffer :
    vec123.Inv ∧ vec123.PushBack 4 = .undefined ∧ vec123.PushBack_move 4 = .undefined := by
  decide

/-- C2 fails on the code: `PushBack(7)` on the default-constructed vector
(size 0 = capacity 0) returns with capacity 2, not `max(1, 2 * 0) = 1`. -/
theorem PushBack_empty_capacity_two :
    (({} : SimpleVector Int).PushBack 7 =
      .ok () { items_ := { raw_ptr_ := .heap [7, 0], size_ := 2 }, size_ := 1,
               capacity_ := 2 }) ∧
    (({} : SimpleVector Int).PushBack_move 7 =
      .ok () { items_ := { raw_ptr_ := .heap [7, 0], size_ := 2 }, size_ := 1,
               capacity_ := 2 }) ∧
    (2 : Nat) ≠ max 1 (2 * ({} : SimpleVector Int).GetCapacity) := by
  decide

/-- C4 fails on the code: the copying overload `Insert(begin() + 1, 9)` on
`{1, 2, 3}` shifts the elements and writes 9, but never increments `size_`:
the size stays 3 and the former last element is no longer inside the vector. -/
theorem Insert_copy_keeps_size :
    vec123.Inv ∧
    (vec123.Insert 1 9 =
      .ok 1 { items_ := { raw_ptr_ := .heap [1, 9, 2, 3, 0, 0], size_ := 6 }, size_ := 3,
              capacity_ := 6 }) ∧
    (3 : Nat) ≠ vec123.GetSize + 1 := by
  decide

/-- C7: for every vector of size `n` and every position offset `k`,
`Erase(begin() + k)` throws `std::out_of_range` exactly when `k < 0` or
`k ≥ n` (in particular for `end()`, and always on an empty vector), and the
vector at the throw is the vector before the call. -/
theorem Erase_out_of_range_iff {α : Type} (v : SimpleVector α) (k : Int) :
    ((∃ st, v.Erase k = .out_of_range st) ↔ (k < 0 ∨ (v.size_ : Int) ≤ k)) ∧
    (∀ st, v.Erase k = .out_of_range st → st = v) ∧
    v.Erase v.end_ = .out_of_range v ∧
    (v.size_ = 0 → v.Erase k = .out_of_range v) := by
  have hcond : (k < v.begin ∨ k ≥ v.end_) ↔ (k < 0 ∨ (v.size_ : Int) ≤ k) := by
    unfold SimpleVector.begin SimpleVector.end_
    exact Iff.rfl
  have hthrow : ∀ j : Int, (j < v.begin ∨ j ≥ v.end_) → v.Erase j = .out_of_range v := by
    intro j hj
    unfold SimpleVector.Erase
    rw [if_pos hj]
  have hend : v.Erase v.end_ = .out_of_range v := hthrow _ (Or.inr (Int.le_refl _))
  have hempty : v.size_ = 0 → v.Erase k = .out_of_range v := by
    intro h0
    apply hthrow
    simp only [SimpleVector.begin, SimpleVector.end_]
    omega
  by_cases h : k < v.begin ∨ k ≥ v.end_
  · have h1 := hthrow k h
    refine ⟨⟨fun _ => hcond.mp h, fun _ => ⟨v, h1⟩⟩, ?_, hend, hempty⟩
    intro st hst
    rw [h1] at hst
    injection hst with e
    exact e.symm
  · have h1 : ∀ st, v.Erase k ≠ .out_of_range st := by
      intro st
      unfold SimpleVector.Erase
      rw [if_neg h]
      simp only
      split <;> simp
    refine ⟨⟨fun ⟨st, hst⟩ => absurd hst (h1 st), fun hk => absurd (hcond.mpr hk) h⟩, ?_,
      hend, hempty⟩
    intro st hst
    exact absurd hst (h1 st)

/-- C8: on a vector of size `n` satisfying the representation invariant,
`At(i)` throws `std::out_of_range` if and only if `i ≥ n` (so `At(n)` and
`At(n + 1)` throw, and `At(n - 1)` returns when `n > 0`), and for `i < n` it
returns the element that the unchecked `operator[](i)` returns, leaving the
vector as it was. -/
theorem At_spec {α : Type} (v : SimpleVector α) (i : Nat) (hinv : v.Inv) :
    ((∃ st, v.At i = .out_of_range st) ↔ v.size_ ≤ i) ∧
    (v.size_ ≤ i → v.At i = .out_of_range v) ∧
    (i < v.size_ → ∃ a, v.index i = some a ∧ v.At i = .ok a v) ∧
    v.At v.size_ = .out_of_range v ∧
    v.At (v.size_ + 1) = .out_of_range v ∧
    (0 < v.size_ → ∃ a, v.index (v.size_ - 1) = some a ∧ v.At (v.size_ - 1) = .ok a v) := by
  have hthrow : ∀ j, v.size_ ≤ j → v.At j = .out_of_range v := by
    intro j hj
    unfold SimpleVector.At
    rw [if_pos hj]
  have hok : ∀ j, j < v.size_ → ∃ a, v.index j = some a ∧ v.At j = .ok a v := by
    intro j hj
    obtain ⟨a, ha⟩ := SimpleVector.index_isSome v j hinv hj
    refine ⟨a, ha, ?_⟩
    unfold SimpleVector.At
    rw [if_neg (by omega), ha]
  refine ⟨⟨?_, fun h => ⟨v, hthrow i h⟩⟩, hthrow i, hok i, hthrow _ (Nat.le_refl _),
    hthrow _ (Nat.le_succ _), fun h => hok _ (by omega)⟩
  rintro ⟨st, hst⟩
  by_contra hlt
  obtain ⟨a, -, ha⟩ := hok i (by omega)
  rw [ha] at hst
  cases hst

/-- C8 witness: checked access on `{1, 2, 3}` at index 2. -/
theorem At_spec_witness :
    ((∃ st, vec123.At 2 = .out_of_range st) ↔ vec123.size_ ≤ 2) ∧
    (vec123.size_ ≤ 2 → vec123.At 2 = .out_of_range vec123) ∧
    (2 < vec123.size_ → ∃ a, vec123.index 2 = some a ∧ vec123.At 2 = .ok a vec123) ∧
    vec123.At vec123.size_ = .out_of_range vec123 ∧
    vec123.At (vec123.size_ + 1) = .out_of_range vec123 ∧
    (0 < vec123.size_ →
      ∃ a, vec123.index (vec123.size_ - 1) = some a ∧
        vec123.At (vec123.size_ - 1) = .ok a vec123) :=
  At_spec vec123 2 (by decide)

/-- C10 fails on the code: `Resize(3)` on `{1, 2, 3}` (capacity 3, so the new
size fits within the capacity) takes the reallocating branch, because the
in-place branch is guarded by `new_size < capacity_`: the capacity becomes 6. -/
theorem Resize_to_capacity_reallocates :
    vec123.Inv ∧ 3 ≤ vec123.GetCapacity ∧
    (vec123.Resize 3 =
      .ok () { items_ := { raw_ptr_ := .heap [1, 2, 3, 0, 0, 0], size_ := 6 }, size_ := 3,
               capacity_ := 6 }) ∧
    (6 : Nat) ≠ vec123.GetCapacity := by
  decide

/-- C11: on a vector of size `n` and capacity `c` satisfying the representation
invariant, `Reserve(r)` returns normally with `GetCapacity() == max(c, r)`,
`GetSize()` still `n`, and every element at an index in `[0, n)` unchanged. -/
theorem Reserve_spec {α : Type} [Inhabited α] (v : SimpleVector α) (r : Nat) (hinv : v.Inv) :
    ∃ v', v.Reserve r = .ok () v' ∧ v'.GetCapacity = max v.GetCapacity r ∧
      v'.GetSize = v.GetSize ∧
      ∀ i, i < v.GetSize → ∃ a, v.index i = some a ∧ v'.index i = some a := by
  by_cases hr : v.capacity_ ≥ r
  · refine ⟨v, ?_, ?_, rfl, ?_⟩
    · unfold SimpleVector.Reserve
      rw [if_pos hr]
    · simp only [SimpleVector.GetCapacity]
      omega
    · intro i hi
      obtain ⟨a, ha⟩ := SimpleVector.index_isSome v i hinv hi
      exact ⟨a, ha, ha⟩
  · obtain ⟨w, hw, hsz, hcap, his, hsl, hg⟩ := SimpleVector.Reserve_grow v r hinv (by omega)
    obtain ⟨h1, h2, h3⟩ := hinv
    refine ⟨w, hw, ?_, hsz, ?_⟩
    · simp only [SimpleVector.GetCapacity]
      omega
    · intro i hi
      simp only [SimpleVector.GetSize] at hi
      obtain ⟨a, ha⟩ := SimpleVector.index_isSome v i ⟨h1, h2, h3⟩ hi
      refine ⟨a, ha, ?_⟩
      rw [SimpleVector.index_eq_load w i (by omega) (by omega), hg i, if_pos hi, ← ha]
      exact (SimpleVector.index_eq_load v i hi (by omega)).symm

/-- C11 witness: `Reserve(9)` on the vector of size 2 and capacity 5. -/
theorem Reserve_spec_witness :
    ∃ v', vecStale.Reserve 9 = .ok () v' ∧ v'.GetCapacity = max vecStale.GetCapacity 9 ∧
      v'.GetSize = vecStale.GetSize ∧
      ∀ i, i < vecStale.GetSize → ∃ a, vecStale.index i = some a ∧ v'.index i = some a :=
  Reserve_spec vecStale 9 (by decide)

/-- C15: on a vector satisfying the representation invariant, `PopBack` on an
empty vector changes nothing (size 0, same capacity, no error), and on a vector
of size `n > 0` it leaves size `n - 1`, the same capacity and the elements at
`[0, n - 1)` unchanged. -/
theorem PopBack_spec {α : Type} (v : SimpleVector α) (hinv : v.Inv) :
    (v.GetSize = 0 → v.PopBack = v) ∧
    (0 < v.GetSize →
      v.PopBack.GetSize = v.GetSize - 1 ∧ v.PopBack.GetCapacity = v.GetCapacity ∧
      ∀ i, i < v.GetSize - 1 → ∃ a, v.index i = some a ∧ v.PopBack.index i = some a) := by
  constructor
  · intro h0
    simp only [SimpleVector.GetSize] at h0
    simp [SimpleVector.PopBack, SimpleVector.IsEmpty, h0]
  · intro hpos
    simp only [SimpleVector.GetSize] at hpos
    have hne : ¬ v.size_ = 0 := by omega
    have hpop : v.PopBack =
        { items_ := v.items_, size_ := v.size_ - 1, capacity_ := v.capacity_ } := by
      simp [SimpleVector.PopBack, SimpleVector.IsEmpty, hne]
    rw [hpop]
    refine ⟨rfl, rfl, ?_⟩
    intro i hi
    simp only [SimpleVector.GetSize] at hi
    obtain ⟨a, ha⟩ := SimpleVector.index_isSome v i hinv (by omega)
    refine ⟨a, ha, ?_⟩
    have hlt : i < v.size_ := by omega
    simp only [SimpleVector.index, hlt, if_true] at ha
    simp only [SimpleVector.index, hi, if_true]
    exact ha

/-- C15 witness: `PopBack` on `{1, 2, 3}`. -/
theorem PopBack_spec_witness :
    (vec123.GetSize = 0 → vec123.PopBack = vec123) ∧
    (0 < vec123.GetSize →
      vec123.PopBack.GetSize = vec123.GetSize - 1 ∧
      vec123.PopBack.GetCapacity = vec123.GetCapacity ∧
      ∀ i, i < vec123.GetSize - 1 →
        ∃ a, vec123.index i = some a ∧ vec123.PopBack.index i = some a) :=
  PopBack_spec vec123 (by decide)

/-- C20: `ArrayPtr(count)` establishes "the buffer pointer is null if and only
if the recorded slot count is 0" (empty for `count == 0`, `count`
default-initialised slots otherwise); `Release()`, `Clear()`, `swap()` and move
construction preserve it; `Release()` returns the buffer owned before and
leaves the object empty; move construction leaves the source empty and gives
the destination the former buffer and slot count of the source. -/
theorem ArrayPtr_null_iff_empty {α : Type} [Inhabited α] (a other : ArrayPtr α) (count : Nat)
    (ha : a.NullIffEmpty) (hb : other.NullIffEmpty) :
    (ArrayPtr.ofSize count : ArrayPtr α).NullIffEmpty ∧
    (count = 0 → (ArrayPtr.ofSize count : ArrayPtr α) = { raw_ptr_ := .null, size_ := 0 }) ∧
    (0 < count → (ArrayPtr.ofSize count : ArrayPtr α) =
      { raw_ptr_ := .heap (List.replicate count default), size_ := count }) ∧
    a.Release.2.NullIffEmpty ∧ a.Release.2 = { raw_ptr_ := .null, size_ := 0 } ∧
    a.Release.1 = a.raw_ptr_ ∧
    a.Clear.NullIffEmpty ∧
    (a.swap other).1.NullIffEmpty ∧ (a.swap other).2.NullIffEmpty ∧
    (ArrayPtr.moveCtor a).1.NullIffEmpty ∧ (ArrayPtr.moveCtor a).2.NullIffEmpty ∧
    (ArrayPtr.moveCtor a).2 = { raw_ptr_ := .null, size_ := 0 } ∧
    (ArrayPtr.moveCtor a).1.raw_ptr_ = a.raw_ptr_ ∧ (ArrayPtr.moveCtor a).1.size_ = a.size_ := by
  have hempty : ({ raw_ptr_ := .null, size_ := 0 } : ArrayPtr α).NullIffEmpty :=
    ⟨fun _ => rfl, fun _ => rfl⟩
  have hmove : ArrayPtr.moveCtor a =
      ({ raw_ptr_ := a.raw_ptr_, size_ := a.size_ }, { raw_ptr_ := .null, size_ := 0 }) := rfl
  refine ⟨?_, ?_, ?_, hempty, rfl, rfl, hempty, hb, ha, ?_, ?_, ?_, ?_, ?_⟩
  · unfold ArrayPtr.ofSize ArrayPtr.NullIffEmpty
    split
    · simp [*]
    · simp [*]
  · intro h0
    simp [ArrayPtr.ofSize, h0]
  · intro hpos
    have : ¬ count = 0 := by omega
    simp [ArrayPtr.ofSize, this]
  · rw [hmove]
    exact ha
  · rw [hmove]
    exact hempty
  · rw [hmove]
  · rw [hmove]
  · rw [hmove]

/-- C20 witness: the buffer of `{1, 2, 3}` and an empty `ArrayPtr`. -/
theorem ArrayPtr_null_iff_empty_witness :
    (ArrayPtr.ofSize 2 : ArrayPtr Int).NullIffEmpty ∧
    (2 = 0 → (ArrayPtr.ofSize 2 : ArrayPtr Int) = { raw_ptr_ := .null, size_ := 0 }) ∧
    (0 < 2 → (ArrayPtr.ofSize 2 : ArrayPtr Int) =
      { raw_ptr_ := .heap (List.replicate 2 default), size_ := 2 }) ∧
    vec123.items_.Release.2.NullIffEmpty ∧
    vec123.items_.Release.2 = { raw_ptr_ := .null, size_ := 0 } ∧
    vec123.items_.Release.1 = vec123.items_.raw_ptr_ ∧
    vec123.items_.Clear.NullIffEmpty ∧
    (vec123.items_.swap {}).1.NullIffEmpty ∧ (vec123.items_.swap {}).2.NullIffEmpty ∧
    (ArrayPtr.moveCtor vec123.items_).1.NullIffEmpty ∧
    (ArrayPtr.moveCtor vec123.items_).2.NullIffEmpty ∧
    (ArrayPtr.moveCtor vec123.items_).2 = { raw_ptr_ := .null, size_ := 0 } ∧
    (ArrayPtr.moveCtor vec123.items_).1.raw_ptr_ = vec123.items_.raw_ptr_ ∧
    (ArrayPtr.moveCtor vec123.items_).1.size_ = vec123.items_.size_ :=
  ArrayPtr_null_iff_empty vec123.items_ {} 2
    (by unfold ArrayPtr.NullIffEmpty; decide) (by unfold ArrayPtr.NullIffEmpty; decide)

/-- C13: copy-constructing `B` from a vector `A` satisfying the representation
invariant yields `B.GetSize() == A.GetSize()`, `B[i] == A[i]` for every
`i < size` and `B.GetCapacity() == A.GetCapacity()`, and leaves `A` as it
was. -/
theorem copyCtor_spec {α : Type} [Inhabited α] (A : SimpleVector α) (hinv : A.Inv) :
    ∃ B A', A.copyCtor = some (B, A') ∧ A' = A ∧ B.GetSize = A.GetSize ∧
      B.GetCapacity = A.GetCapacity ∧
      ∀ i, i < A.GetSize → ∃ a, A.index i = some a ∧ B.index i = some a := by
  obtain ⟨h1, h2, h3⟩ := hinv
  obtain ⟨p, hcp, -, hps, hpg⟩ := SimpleVector.copy_move_ctor_spec A (by omega)
  refine ⟨_, _, hcp, rfl, rfl, rfl, ?_⟩
  intro i hi
  simp only [SimpleVector.GetSize] at hi
  obtain ⟨a, ha⟩ := SimpleVector.index_isSome A i ⟨h1, h2, h3⟩ hi
  refine ⟨a, ha, ?_⟩
  rw [SimpleVector.index_eq_load
    { items_ := { raw_ptr_ := p, size_ := A.size_ }, size_ := A.size_,
      capacity_ := A.capacity_ } i hi (Nat.le_refl _)]
  simp only
  rw [hpg i hi, ← ha]
  exact (SimpleVector.index_eq_load A i hi (by omega)).symm

/-- C13 witness: copy construction from the vector of size 2 and capacity 5. -/
theorem copyCtor_spec_witness :
    ∃ B A', vecStale.copyCtor = some (B, A') ∧ A' = vecStale ∧ B.GetSize = vecStale.GetSize ∧
      B.GetCapacity = vecStale.GetCapacity ∧
      ∀ i, i < vecStale.GetSize → ∃ a, vecStale.index i = some a ∧ B.index i = some a :=
  copyCtor_spec vecStale (by decide)

/-- C14 fails on the code: `{1, 2} == {1, 2, 3}` is `true` although the sizes
differ (`operator!=` is `false`, while `operator<` is `true` on the same
pair), because `operator==` runs the three-iterator `std::equal` and never
compares sizes; with the operands exchanged `std::equal` reads slot 2 of the
2-slot buffer. -/
theorem operator_eq_ignores_size :
    vec12.Inv ∧ vec123.Inv ∧ vec12.GetSize ≠ vec123.GetSize ∧
    SimpleVector.operator_eq false vec12 vec123 = some true ∧
    SimpleVector.operator_ne false vec12 vec123 = some false ∧
    SimpleVector.operator_lt vec12 vec123 = some true ∧
    SimpleVector.operator_eq false vec123 vec12 = none := by
  decide

/-- C18 fails on the code: the vector of size 2 and capacity 5 (reached from
`{1, 2, 3, 7, 8}` by three `PopBack` calls) satisfies the invariant, but its
copy has `capacity_` 5 over a buffer of 2 slots; the move constructor and the
assignment operator build the same object, and a `PushBack` on it writes slot
2 of the 2-slot buffer. -/
theorem copyCtor_breaks_invariant :
    (SimpleVector.ofInitList [1, 2, 3, 7, 8]).map (fun v => v.PopBack.PopBack.PopBack) =
      some vecStale ∧
    vecStale.Inv ∧
    SimpleVector.copyCtor vecStale = some (vecShortBuffer, vecStale) ∧
    (SimpleVector.moveCtor vecStale).map (fun r => r.1) = some vecShortBuffer ∧
    SimpleVector.operator_assign false {} vecStale = some (vecShortBuffer, vecStale) ∧
    ¬ vecShortBuffer.Inv ∧
    vecShortBuffer.capacity_ = 5 ∧ vecShortBuffer.items_.size_ = 2 ∧
    vecShortBuffer.PushBack 9 = .undefined := by
  decide

/-- C19 fails on the code: when `PushBack` on the full vector `{1, 2, 3}`
enters `Resize(++size_)`, `size_` is already 4, so the range
`[begin(), end())` that `Resize` moves out of the old buffer has length 4 while
the buffer has 3 slots: slot 3 is read past the end and the move has no
defined result. -/
theorem PushBack_moved_range_exceeds_buffer :
    vec123.Inv ∧ vec123.size_ = vec123.capacity_ ∧ 0 < vec123.capacity_ ∧
    ∃ v1 : SimpleVector Int,
      v1 = { items_ := vec123.items_, size_ := vec123.size_ + 1,
             capacity_ := vec123.capacity_ } ∧
      v1.end_ - v1.begin = 4 ∧ v1.items_.Get.slots = 3 ∧
      ¬ (v1.end_ - v1.begin ≤ (vec123.capacity_ : Int)) ∧
      v1.items_.Get.load 3 = none ∧
      std_move v1.items_.Get 0 v1.size_ (ArrayPtr.ofSize (v1.size_ * 2) : ArrayPtr Int).Get 0
        = none ∧
      v1.Resize v1.size_ = .undefined ∧
      vec123.PushBack 4 = .undefined ∧ vec123.PushBack_move 4 = .undefined := by
  refine ⟨by decide, by decide, by decide, _, rfl, ?_⟩
  decide

end CppSimpleVector
